import Mathlib

set_option autoImplicit false

/-!
Shallow embedding of `src/public/javascripts/backbone.mobile.js`:
the `Mobile.BindTo` subscription registry, the `Mobile.View` lifecycle
(`serializeData`, `mixinTemplateHelpers`, `configureTriggers`,
`delegateEvents`, `close`) and the `Mobile.AppRouter` route compilation
(`processAppRoutes`).

JavaScript objects that only matter by reference identity (event sources,
callbacks, contexts, controllers, views) are modelled as `Nat` identities.
The external event-emitter collaborator (`Backbone.Events`' `on`/`off`) is
modelled, following the spec's external-interface description, as a multiset
of active `(sourceObject, eventName, callback, context)` registrations:
`on` adds one registration, `off` removes one matching registration.
-/

namespace BackboneMobile

/-- The `(sourceObject, eventName, callback, context)` tuple that `bindTo`
passes to the external emitter's `on`, and `unbindFrom` passes to `off`. -/
structure Key where
  obj : Nat
  eventName : String
  callback : Nat
  context : Nat
deriving DecidableEq, Repr

/-- A binding record as created and returned by `bindTo`
(`{ obj, eventName, callback, context }` in the source). JavaScript
reference identity of the record is modelled by the `id` field: each
`bindTo` call allocates a fresh `id`, so records created by different
calls are distinct even when all other fields coincide. -/
structure Binding where
  id : Nat
  obj : Nat
  eventName : String
  callback : Nat
  context : Nat
deriving DecidableEq, Repr

/-- The emitter key carried by a binding record. -/
def Binding.key (b : Binding) : Key :=
  ⟨b.obj, b.eventName, b.callback, b.context⟩

/-- State of one `BindTo`-capable owner object together with the external
emitter registrations made through it and a log of its `off` calls.
`bindings` is the `this.bindings` array; `listeners` is the multiset of
active external registrations made through this registry; `offLog` records
every invocation of the emitter's `off` performed by `unbindFrom`, in
order; `nextId` allocates record identities. -/
structure RegState where
  bindings : List Binding
  listeners : List Key
  offLog : List Binding
  nextId : Nat
deriving DecidableEq, Repr

/-- The empty registry (a fresh owner: `this.bindings` not yet created). -/
def RegState.init : RegState :=
  ⟨[], [], [], 0⟩

/-- External emitter `on`: adds one active registration. -/
def emitterOn (ls : List Key) (k : Key) : List Key :=
  ls ++ [k]

/-- External emitter `off` with event name, callback and context: removes
one matching active registration (modelled from the spec's
`unsubscribe(eventName, callback, context)` capability). -/
def emitterOff (ls : List Key) (k : Key) : List Key :=
  ls.erase k

/-- `Mobile.BindTo.bindTo(obj, eventName, callback, context)` run by owner
`self`: defaults `context` to `this`, calls `obj.on(...)`, pushes a fresh
binding record and returns it. -/
def bindTo (self : Nat) (st : RegState) (obj : Nat) (eventName : String)
    (callback : Nat) (context : Option Nat) : Binding × RegState :=
  let ctx := context.getD self
  let k : Key := ⟨obj, eventName, callback, ctx⟩
  let binding : Binding := ⟨st.nextId, obj, eventName, callback, ctx⟩
  (binding,
    { bindings := st.bindings ++ [binding]
      listeners := emitterOn st.listeners k
      offLog := st.offLog
      nextId := st.nextId + 1 })

/-- `Mobile.BindTo.unbindFrom(binding)`: unconditionally calls
`binding.obj.off(binding.eventName, binding.callback, binding.context)`,
then replaces `this.bindings` with `_.reject(this.bindings,
function(bind){return bind === binding})` (identity comparison). -/
def unbindFrom (st : RegState) (binding : Binding) : RegState :=
  { bindings := st.bindings.filter (fun b => b ≠ binding)
    listeners := emitterOff st.listeners binding.key
    offLog := st.offLog ++ [binding]
    nextId := st.nextId }

/-- `Mobile.BindTo.unbindAll()`: clones `this.bindings`
(`_.map(this.bindings, _.identity)`) and calls `unbindFrom` on each
element of the snapshot while the live array is being mutated. -/
def unbindAll (st : RegState) : RegState :=
  let snapshot := st.bindings.map id
  snapshot.foldl unbindFrom st

/-! Behaviour of folding `unbindFrom` over a snapshot list. -/

theorem foldl_unbindFrom_bindings (bs : List Binding) (st : RegState) :
    (bs.foldl unbindFrom st).bindings
      = st.bindings.filter (fun b => decide (b ∉ bs)) := by
  induction bs generalizing st with
  | nil => simp
  | cons hd tl ih =>
    rw [List.foldl_cons, ih]
    show ((unbindFrom st hd).bindings).filter _ = _
    rw [unbindFrom, List.filter_filter]
    apply List.filter_congr
    intro b _
    by_cases hbh : b = hd <;> by_cases hbt : b ∈ tl <;> simp [hbh, hbt]

theorem foldl_unbindFrom_offLog (bs : List Binding) (st : RegState) :
    (bs.foldl unbindFrom st).offLog = st.offLog ++ bs := by
  induction bs generalizing st with
  | nil => simp
  | cons hd tl ih =>
    rw [List.foldl_cons, ih, unbindFrom]
    simp

theorem foldl_unbindFrom_listeners_count (bs : List Binding) (st : RegState)
    (k : Key) :
    (bs.foldl unbindFrom st).listeners.count k
      = st.listeners.count k - (bs.map Binding.key).count k := by
  induction bs generalizing st with
  | nil => simp
  | cons hd tl ih =>
    rw [List.foldl_cons, ih]
    show (emitterOff st.listeners hd.key).count k - _ = _
    rw [emitterOff, List.count_erase, List.map_cons, List.count_cons,
      Nat.sub_sub]
    congr 1
    by_cases h : hd.key = k
    · subst h
      simp only [beq_self_eq_true, if_true]
      omega
    · have h' : ¬k = hd.key := fun hk => h hk.symm
      simp only [if_neg (by simpa using h : ¬(hd.key == k) = true),
        if_neg (by simpa using h' : ¬(k == hd.key) = true)]
      omega

theorem foldl_unbindFrom_nextId (bs : List Binding) (st : RegState) :
    (bs.foldl unbindFrom st).nextId = st.nextId := by
  induction bs generalizing st with
  | nil => rfl
  | cons hd tl ih => rw [List.foldl_cons, ih]; rfl

/-- C1: for every registry state whose active listeners are exactly the
ones registered through it, `unbindAll()` leaves the registry empty and
zero listeners registered through it; the traversal runs over a snapshot
of the subscription sequence, so every entry present at the start is
unbound exactly once, in order, and none is skipped or double-processed
even though `unbindFrom` mutates the live `bindings` array during the
iteration; on an empty registry `unbindAll()` is a no-op. -/
theorem c1_unbindAll_empties (st : RegState)
    (hws : ∀ k : Key, st.listeners.count k = (st.bindings.map Binding.key).count k) :
    (unbindAll st).bindings = []
      ∧ (unbindAll st).listeners = []
      ∧ (unbindAll st).offLog = st.offLog ++ st.bindings
      ∧ (st.bindings = [] → unbindAll st = st) := by
  have hsnap : st.bindings.map id = st.bindings := List.map_id st.bindings
  refine ⟨?_, ?_, ?_, ?_⟩
  · rw [unbindAll, hsnap, foldl_unbindFrom_bindings]
    apply List.filter_eq_nil_iff.mpr
    intro b hb
    simp [hb]
  · have hcount : ∀ k : Key, (unbindAll st).listeners.count k = 0 := by
      intro k
      rw [unbindAll, hsnap, foldl_unbindFrom_listeners_count, hws k,
        Nat.sub_self]
    rcases h : (unbindAll st).listeners with _ | ⟨k, ls⟩
    · rfl
    · exfalso
      have : (unbindAll st).listeners.count k ≠ 0 := by
        rw [h]
        simp [List.count_cons_self]
      exact this (hcount k)
  · rw [unbindAll, hsnap, foldl_unbindFrom_offLog]
  · intro hnil
    rw [unbindAll, hnil]
    rfl

/-- A two-binding registry built through `bindTo`, with two subscriptions
carrying identical arguments. -/
def c1Example : RegState :=
  (bindTo 0 (bindTo 0 RegState.init 1 "change" 2 none).2 1 "change" 2 none).2

theorem c1_unbindAll_empties_witness :
    (unbindAll c1Example).bindings = []
      ∧ (unbindAll c1Example).listeners = []
      ∧ (unbindAll c1Example).offLog = c1Example.offLog ++ c1Example.bindings
      ∧ (c1Example.bindings = [] → unbindAll c1Example = c1Example) :=
  c1_unbindAll_empties c1Example (fun _ => rfl)

/-- C6: for a subscription record present exactly once in the registry,
`unbindFrom` removes exactly that record, leaving every other record
unchanged and in order; it deregisters exactly one matching listener on
the record's source object (counts of every other listener key are
untouched); and for a record not present in the registry it removes zero
records and corrupts nothing. Matching is by record identity: another
record with identical fields but different identity is not removed. -/
theorem c6_unbindFrom_removes_exactly_one (st : RegState) (b : Binding) :
    (∀ l1 l2, st.bindings = l1 ++ b :: l2 → b ∉ l1 → b ∉ l2 →
        (unbindFrom st b).bindings = l1 ++ l2)
      ∧ (unbindFrom st b).listeners.count b.key = st.listeners.count b.key - 1
      ∧ (∀ k : Key, k ≠ b.key →
          (unbindFrom st b).listeners.count k = st.listeners.count k)
      ∧ (b ∉ st.bindings → (unbindFrom st b).bindings = st.bindings) := by
  refine ⟨?_, ?_, ?_, ?_⟩
  · intro l1 l2 hsplit h1 h2
    show (st.bindings.filter fun x => x ≠ b) = l1 ++ l2
    have hl1 : (l1.filter fun x => x ≠ b) = l1 :=
      List.filter_eq_self.mpr fun a ha =>
        decide_eq_true fun hab => h1 (hab ▸ ha)
    have hl2 : (l2.filter fun x => x ≠ b) = l2 :=
      List.filter_eq_self.mpr fun a ha =>
        decide_eq_true fun hab => h2 (hab ▸ ha)
    rw [hsplit, List.filter_append, List.filter_cons, if_neg (by simp),
      hl1, hl2]
  · show (st.listeners.erase b.key).count b.key = _
    exact List.count_erase_self b.key st.listeners
  · intro k hk
    exact List.count_erase_of_ne hk st.listeners
  · intro hnot
    show (st.bindings.filter fun x => x ≠ b) = st.bindings
    exact List.filter_eq_self.mpr fun a ha =>
      decide_eq_true fun hab => hnot (hab ▸ ha)

/-- A registry holding two identity-distinct records with identical
fields: the result of binding the same arguments twice. -/
def c6B0 : Binding := ⟨0, 1, "change", 2, 0⟩

def c6B1 : Binding := ⟨1, 1, "change", 2, 0⟩

def c6State : RegState :=
  ⟨[c6B0, c6B1], [c6B0.key, c6B1.key], [], 2⟩

/-- A registry in which `c6B0` is absent (already removed). -/
def c6StaleState : RegState :=
  ⟨[c6B1], [c6B1.key], [c6B0], 2⟩

theorem c6_unbindFrom_removes_exactly_one_witness :
    (unbindFrom c6State c6B0).bindings = [c6B1]
      ∧ (unbindFrom c6State c6B0).listeners.count c6B0.key
          = c6State.listeners.count c6B0.key - 1
      ∧ (unbindFrom c6StaleState c6B0).bindings = c6StaleState.bindings :=
  ⟨(c6_unbindFrom_removes_exactly_one c6State c6B0).1 [] [c6B1] rfl
      (by decide) (by decide),
   (c6_unbindFrom_removes_exactly_one c6State c6B0).2.1,
   (c6_unbindFrom_removes_exactly_one c6StaleState c6B0).2.2.2 (by decide)⟩

/-- C10: `unbindFrom` performs the external deregistration (`off` with the
record's event name, callback and context on its source object)
unconditionally, exactly once per call — also when the record is not in
the registry, in which case zero registry records are removed while the
`off` call still happens; calling it twice with the same record performs
a second external deregistration. -/
theorem c10_off_called_unconditionally (st : RegState) (b : Binding) :
    (unbindFrom st b).offLog = st.offLog ++ [b]
      ∧ (unbindFrom (unbindFrom st b) b).offLog = st.offLog ++ [b] ++ [b]
      ∧ (unbindFrom st b).listeners = emitterOff st.listeners b.key
      ∧ (b ∉ st.bindings →
          (unbindFrom st b).bindings = st.bindings
            ∧ (unbindFrom st b).offLog = st.offLog ++ [b]) := by
  refine ⟨rfl, rfl, rfl, ?_⟩
  intro hnot
  refine ⟨?_, rfl⟩
  show (st.bindings.filter fun x => x ≠ b) = st.bindings
  exact List.filter_eq_self.mpr fun a ha =>
    decide_eq_true fun hab => hnot (hab ▸ ha)

theorem c10_off_called_unconditionally_witness :
    (unbindFrom c6StaleState c6B0).bindings = c6StaleState.bindings
      ∧ (unbindFrom c6StaleState c6B0).offLog = c6StaleState.offLog ++ [c6B0] :=
  (c10_off_called_unconditionally c6StaleState c6B0).2.2.2 (by decide)

/-! Interaction sequences of `bindTo` / `unbindFrom` calls, for the
counting property. Starting from `RegState.init`, the `i`-th `bind` call
allocates record identity `i`, so an `unbind i` op denotes an
`unbindFrom` call whose argument is the record returned by the `i`-th
`bind` call; the call is made only while that record is still in the
registry (the spec leaves `unbindFrom` on an absent record undefined). -/

inductive RegOp where
  | bind (obj : Nat) (eventName : String) (callback : Nat) (context : Option Nat)
  | unbind (i : Nat)
deriving DecidableEq, Repr

def runOps (self : Nat) : RegState → List RegOp → RegState
  | st, [] => st
  | st, RegOp.bind o e c ctx :: rest => runOps self (bindTo self st o e c ctx).2 rest
  | st, RegOp.unbind i :: rest =>
    match st.bindings.find? (fun b => b.id == i) with
    | some b => runOps self (unbindFrom st b) rest
    | none => runOps self st rest

/-- The binding record created by the `i`-th `bind` call, reconstructed
from its allocation index and emitter key. -/
def mkBinding (p : Nat × Key) : Binding :=
  ⟨p.1, p.2.obj, p.2.eventName, p.2.callback, p.2.context⟩

/-- History-level bookkeeping: `(number of bind calls so far, list of
(bind-call index, key) pairs whose record has not yet been unbound)`. -/
def histStep (self : Nat) (acc : Nat × List (Nat × Key)) (op : RegOp) :
    Nat × List (Nat × Key) :=
  match op with
  | RegOp.bind o e c ctx => (acc.1 + 1, acc.2 ++ [(acc.1, ⟨o, e, c, ctx.getD self⟩)])
  | RegOp.unbind i => (acc.1, acc.2.filter (fun p => p.1 ≠ i))

def activeBindCalls (self : Nat) (ops : List RegOp) : List (Nat × Key) :=
  (ops.foldl (histStep self) (0, [])).2

/-- The number of `bind` calls in `ops` with key `k` that have not been
unbound by the end of the sequence. -/
def notYetUnbound (self : Nat) (ops : List RegOp) (k : Key) : Nat :=
  ((activeBindCalls self ops).map Prod.snd).count k

/-- The simulation invariant between a registry state and the
history-level bookkeeping. -/
def Inv (st : RegState) (n : Nat) (active : List (Nat × Key)) : Prop :=
  st.nextId = n
    ∧ (∀ p ∈ active, p.1 < n)
    ∧ (active.map Prod.fst).Nodup
    ∧ st.bindings = active.map mkBinding
    ∧ (∀ k : Key, st.listeners.count k = (active.map Prod.snd).count k)

theorem Binding.key_mkBinding (p : Nat × Key) : (mkBinding p).key = p.2 :=
  rfl

theorem inv_bind (self : Nat) (st : RegState) (n : Nat)
    (active : List (Nat × Key)) (o : Nat) (e : String) (c : Nat)
    (ctx : Option Nat) (h : Inv st n active) :
    Inv (bindTo self st o e c ctx).2 (n + 1)
      (active ++ [(n, ⟨o, e, c, ctx.getD self⟩)]) := by
  obtain ⟨hn, hlt, hnd, hb, hl⟩ := h
  refine ⟨?_, ?_, ?_, ?_, ?_⟩
  · show st.nextId + 1 = n + 1
    omega
  · intro p hp
    rcases List.mem_append.mp hp with hp | hp
    · exact Nat.lt_succ_of_lt (hlt p hp)
    · rcases List.mem_singleton.mp hp with rfl
      exact Nat.lt_succ_self n
  · rw [List.map_append]
    rw [List.nodup_append]
    refine ⟨hnd, List.nodup_singleton n, ?_⟩
    intro a ha hb'
    rcases List.mem_singleton.mp hb' with rfl
    rcases List.mem_map.mp ha with ⟨p, hp, rfl⟩
    exact Nat.lt_irrefl _ (hlt p hp)
  · show st.bindings ++ [⟨st.nextId, o, e, c, ctx.getD self⟩] = _
    rw [hb, List.map_append, hn]
    rfl
  · intro k
    show (emitterOn st.listeners _).count k = _
    rw [emitterOn, List.count_append, hl k, List.map_append,
      List.count_append]
    rfl

theorem inv_unbind_none (st : RegState) (n : Nat)
    (active : List (Nat × Key)) (i : Nat) (h : Inv st n active)
    (hfind : st.bindings.find? (fun b => b.id == i) = none) :
    active.filter (fun p => p.1 ≠ i) = active := by
  obtain ⟨hn, hlt, hnd, hb, hl⟩ := h
  apply List.filter_eq_self.mpr
  intro p hp
  apply decide_eq_true
  intro hpi
  have hmem : mkBinding p ∈ st.bindings := by
    rw [hb]
    exact List.mem_map.mpr ⟨p, hp, rfl⟩
  have := List.find?_eq_none.mp hfind (mkBinding p) hmem
  apply this
  show ((mkBinding p).id == i) = true
  simp [mkBinding, hpi]

theorem inv_unbind_some (st : RegState) (n : Nat)
    (active : List (Nat × Key)) (i : Nat) (b : Binding) (h : Inv st n active)
    (hfind : st.bindings.find? (fun b => b.id == i) = some b) :
    Inv (unbindFrom st b) n (active.filter (fun p => p.1 ≠ i)) := by
  obtain ⟨hn, hlt, hnd, hb, hl⟩ := h
  have hbid : b.id = i := by
    have := List.find?_some hfind
    simpa using this
  have hbmem : b ∈ st.bindings := List.mem_of_find?_eq_some hfind
  rw [hb] at hbmem
  rcases List.mem_map.mp hbmem with ⟨p0, hp0, hp0b⟩
  have hp0i : p0.1 = i := by
    rw [← hbid, ← hp0b]
    rfl
  rcases List.append_of_mem hp0 with ⟨l1, l2, rfl⟩
  have hnd' := hnd
  rw [List.map_append, List.map_cons, List.nodup_append] at hnd'
  obtain ⟨hnd1, hnd2, hdisj⟩ := hnd'
  have hil1 : ∀ q ∈ l1, q.1 ≠ i := by
    intro q hq hqi
    exact hdisj (List.mem_map.mpr ⟨q, hq, rfl⟩)
      (by rw [hqi, ← hp0i]; exact List.mem_cons_self _ _)
  have hil2 : ∀ q ∈ l2, q.1 ≠ i := by
    intro q hq hqi
    rcases List.nodup_cons.mp hnd2 with ⟨hp0nl2, _⟩
    exact hp0nl2 (by
      rw [hp0i, ← hqi]
      exact List.mem_map.mpr ⟨q, hq, rfl⟩)
  have hfilter : (l1 ++ p0 :: l2).filter (fun p => p.1 ≠ i) = l1 ++ l2 := by
    have h1 : l1.filter (fun p => p.1 ≠ i) = l1 :=
      List.filter_eq_self.mpr fun q hq => decide_eq_true (hil1 q hq)
    have h2 : l2.filter (fun p => p.1 ≠ i) = l2 :=
      List.filter_eq_self.mpr fun q hq => decide_eq_true (hil2 q hq)
    rw [List.filter_append, List.filter_cons, if_neg (by simp [hp0i]), h1, h2]
  rw [hfilter]
  refine ⟨hn, ?_, ?_, ?_, ?_⟩
  · intro q hq
    exact hlt q (by
      rcases List.mem_append.mp hq with hq | hq
      · exact List.mem_append.mpr (Or.inl hq)
      · exact List.mem_append.mpr (Or.inr (List.mem_cons_of_mem _ hq)))
  · rw [List.map_append]
    rw [List.nodup_append]
    exact ⟨hnd1, (List.nodup_cons.mp hnd2).2, fun a ha hb' =>
      hdisj ha (List.mem_cons_of_mem _ hb')⟩
  · show st.bindings.filter (fun x => x ≠ b) = _
    rw [hb, List.map_append, List.map_cons, List.filter_append,
      List.filter_cons, if_neg (by simp [hp0b]), List.map_append]
    have h1 : (l1.map mkBinding).filter (fun x => x ≠ b) = l1.map mkBinding := by
      apply List.filter_eq_self.mpr
      intro x hx
      apply decide_eq_true
      rcases List.mem_map.mp hx with ⟨q, hq, rfl⟩
      intro hqb
      apply hil1 q hq
      rw [← hbid, ← hqb]
      rfl
    have h2 : (l2.map mkBinding).filter (fun x => x ≠ b) = l2.map mkBinding := by
      apply List.filter_eq_self.mpr
      intro x hx
      apply decide_eq_true
      rcases List.mem_map.mp hx with ⟨q, hq, rfl⟩
      intro hqb
      apply hil2 q hq
      rw [← hbid, ← hqb]
      rfl
    rw [h1, h2]
  · intro k
    show (emitterOff st.listeners b.key).count k = _
    have hbkey : b.key = p0.2 := by
      rw [← hp0b]
      exact Binding.key_mkBinding p0
    rw [emitterOff, List.count_erase, hl k, hbkey, List.map_append,
      List.map_cons, List.count_append, List.count_cons, List.map_append,
      List.count_append]
    by_cases hpk : p0.2 = k
    · subst hpk
      simp only [beq_self_eq_true, if_true]
      omega
    · have hpk' : ¬k = p0.2 := fun hkk => hpk hkk.symm
      simp only [if_neg (by simpa using hpk : ¬(p0.2 == k) = true),
        if_neg (by simpa using hpk' : ¬(k == p0.2) = true)]
      omega

theorem runOps_inv (self : Nat) (ops : List RegOp) :
    ∀ (st : RegState) (acc : Nat × List (Nat × Key)), Inv st acc.1 acc.2 →
      Inv (runOps self st ops) (ops.foldl (histStep self) acc).1
        (ops.foldl (histStep self) acc).2 := by
  induction ops with
  | nil => intro st acc h; exact h
  | cons op rest ih =>
    intro st acc h
    cases op with
    | bind o e c ctx =>
      rw [List.foldl_cons]
      show Inv (runOps self (bindTo self st o e c ctx).2 rest) _ _
      exact ih _ (histStep self acc (RegOp.bind o e c ctx))
        (inv_bind self st acc.1 acc.2 o e c ctx h)
    | unbind i =>
      rw [List.foldl_cons]
      rcases hfind : st.bindings.find? (fun b => b.id == i) with _ | b
      · have hrun : runOps self st (RegOp.unbind i :: rest) = runOps self st rest := by
          show (match st.bindings.find? (fun b => b.id == i) with
            | some b => runOps self (unbindFrom st b) rest
            | none => runOps self st rest) = _
          rw [hfind]
        rw [hrun]
        have hact := inv_unbind_none st acc.1 acc.2 i h hfind
        have : histStep self acc (RegOp.unbind i) = acc := by
          show (acc.1, acc.2.filter fun p => p.1 ≠ i) = acc
          rw [hact]
        rw [this]
        exact ih st acc h
      · have hrun : runOps self st (RegOp.unbind i :: rest)
            = runOps self (unbindFrom st b) rest := by
          show (match st.bindings.find? (fun b => b.id == i) with
            | some b => runOps self (unbindFrom st b) rest
            | none => runOps self st rest) = _
          rw [hfind]
        rw [hrun]
        exact ih _ (histStep self acc (RegOp.unbind i))
          (inv_unbind_some st acc.1 acc.2 i b h hfind)

theorem inv_init : Inv RegState.init 0 [] :=
  ⟨rfl, fun _ hp => absurd hp (List.not_mem_nil _), List.nodup_nil, rfl,
    fun _ => rfl⟩

/-- C5: over every finite sequence of `bindTo`/`unbindFrom` calls starting
from a fresh registry, the number of active listeners registered through
the registry on a given `(sourceObject, eventName, callback, context)`
combination equals the number of `bind` calls with that exact combination
not yet unbound; each `bindTo` appends a single new record to the registry
and returns it; the returned record is identity-distinct from every record
already in the registry, even one with identical arguments (no
deduplication); and when no context is supplied the binding's context is
the binding object itself. -/
theorem c5_bind_unbind_counting (self : Nat) (ops : List RegOp) (k : Key) :
    (runOps self RegState.init ops).listeners.count k = notYetUnbound self ops k
      ∧ (∀ (st : RegState) (obj : Nat) (e : String) (cb : Nat) (ctx : Option Nat),
          (bindTo self st obj e cb ctx).2.bindings
            = st.bindings ++ [(bindTo self st obj e cb ctx).1])
      ∧ (∀ (obj : Nat) (e : String) (cb : Nat) (ctx : Option Nat),
          (bindTo self (runOps self RegState.init ops) obj e cb ctx).1
            ∉ (runOps self RegState.init ops).bindings)
      ∧ (∀ (st : RegState) (obj : Nat) (e : String) (cb : Nat),
          (bindTo self st obj e cb none).1.context = self) := by
  have hinv := runOps_inv self ops RegState.init (0, []) inv_init
  obtain ⟨hn, hlt, _, hb, hl⟩ := hinv
  refine ⟨hl k, fun _ _ _ _ _ => rfl, ?_, fun _ _ _ _ => rfl⟩
  intro obj e cb ctx hmem
  rw [hb] at hmem
  rcases List.mem_map.mp hmem with ⟨p, hp, hpb⟩
  have : p.1 = (runOps self RegState.init ops).nextId := congrArg Binding.id hpb
  rw [hn] at this
  exact Nat.lt_irrefl _ (this ▸ hlt p hp)

/-- Two binds with identical arguments followed by unbinding the first. -/
def c5Ops : List RegOp :=
  [RegOp.bind 1 "change" 2 none, RegOp.bind 1 "change" 2 none, RegOp.unbind 0]

theorem c5_bind_unbind_counting_witness :
    (runOps 0 RegState.init c5Ops).listeners.count ⟨1, "change", 2, 0⟩
      = notYetUnbound 0 c5Ops ⟨1, "change", 2, 0⟩ :=
  (c5_bind_unbind_counting 0 c5Ops ⟨1, "change", 2, 0⟩).1

/-! The `Mobile.View` close lifecycle. The DOM/`remove()`, the lifecycle
hooks and the `trigger` capability only matter through which of them run
and in which order, so `close` threads an action log; the `onClose` log
entry records what the hook observes at the moment it runs (whether the
view is detached, and the registry size). -/

inductive CloseAction where
  | beforeCloseCalled
  | removed
  | onCloseCalled (detached : Bool) (regSize : Nat)
  | triggered (eventName : String)
  | unboundOwn
deriving DecidableEq, Repr

structure ViewState where
  hasBeforeClose : Bool
  hasOnClose : Bool
  reg : RegState
  detached : Bool
  ownUnbound : Bool
  log : List CloseAction
deriving DecidableEq, Repr

/-- `Mobile.View.close()`: `beforeClose` if present, `this.remove()`,
`onClose` if present, `this.trigger('close')`, `this.unbindAll()`,
`this.unbind()` — in that order. -/
def close (v : ViewState) : ViewState :=
  let v1 := if v.hasBeforeClose then
      { v with log := v.log ++ [CloseAction.beforeCloseCalled] }
    else v
  let v2 := { v1 with detached := true, log := v1.log ++ [CloseAction.removed] }
  let v3 := if v2.hasOnClose then
      { v2 with log := v2.log
          ++ [CloseAction.onCloseCalled v2.detached v2.reg.bindings.length] }
    else v2
  let v4 := { v3 with log := v3.log ++ [CloseAction.triggered "close"] }
  let v5 := { v4 with reg := unbindAll v4.reg }
  { v5 with ownUnbound := true, log := v5.log ++ [CloseAction.unboundOwn] }

theorem unbindAll_bindings (st : RegState) : (unbindAll st).bindings = [] := by
  have hsnap : st.bindings.map id = st.bindings := List.map_id st.bindings
  rw [unbindAll, hsnap, foldl_unbindFrom_bindings]
  apply List.filter_eq_nil_iff.mpr
  intro b hb
  simp [hb]

/-- C4: `close()` performs exactly, and in this order: `beforeClose` when
present, detach, `onClose` when present, emit `"close"`, unbind all owned
subscriptions, unbind the view's own listeners. After close the registry
is empty and `"close"` has fired exactly once, and `onClose` (when
present) ran while the view was already detached but while the registry
still held its pre-close contents (non-empty whenever it was non-empty
before the close). -/
theorem c4_close_ordering (v : ViewState) :
    (close v).log
        = v.log
          ++ (if v.hasBeforeClose then [CloseAction.beforeCloseCalled] else [])
          ++ [CloseAction.removed]
          ++ (if v.hasOnClose then
                [CloseAction.onCloseCalled true v.reg.bindings.length] else [])
          ++ [CloseAction.triggered "close", CloseAction.unboundOwn]
      ∧ (close v).reg.bindings = []
      ∧ (close v).detached = true
      ∧ (v.log.count (CloseAction.triggered "close") = 0 →
          (close v).log.count (CloseAction.triggered "close") = 1)
      ∧ (v.hasOnClose = true →
          CloseAction.onCloseCalled true v.reg.bindings.length ∈ (close v).log
            ∧ (v.reg.bindings ≠ [] → 0 < v.reg.bindings.length)) := by
  have hlog : (close v).log
      = v.log
        ++ (if v.hasBeforeClose then [CloseAction.beforeCloseCalled] else [])
        ++ [CloseAction.removed]
        ++ (if v.hasOnClose then
              [CloseAction.onCloseCalled true v.reg.bindings.length] else [])
        ++ [CloseAction.triggered "close", CloseAction.unboundOwn] := by
    rcases hbc : v.hasBeforeClose <;> rcases hoc : v.hasOnClose <;>
      simp [close, hbc, hoc]
  refine ⟨hlog, ?_, ?_, ?_, ?_⟩
  · show (unbindAll _).bindings = []
    exact unbindAll_bindings _
  · rcases hbc : v.hasBeforeClose <;> rcases hoc : v.hasOnClose <;>
      simp [close, hbc, hoc]
  · intro h0
    rw [hlog]
    rcases hbc : v.hasBeforeClose <;> rcases hoc : v.hasOnClose <;>
      simp [hbc, hoc, List.count_append, List.count_cons, h0]
  · intro hoc
    constructor
    · rw [hlog, hoc]
      simp
    · intro hne
      rcases h : v.reg.bindings with _ | _
      · exact absurd h hne
      · simp [h]

/-- A freshly-built view with both optional hooks and one subscription. -/
def c4Binding : Binding := ⟨0, 5, "show", 7, 9⟩

def c4View : ViewState :=
  ⟨true, true, ⟨[c4Binding], [c4Binding.key], [], 1⟩, false, false, []⟩

theorem c4_close_ordering_witness :
    (close c4View).reg.bindings = []
      ∧ (close c4View).log.count (CloseAction.triggered "close") = 1
      ∧ CloseAction.onCloseCalled true c4View.reg.bindings.length
          ∈ (close c4View).log :=
  ⟨(c4_close_ordering c4View).2.1,
   (c4_close_ordering c4View).2.2.2.1 (by decide),
   ((c4_close_ordering c4View).2.2.2.2 (by decide)).1⟩

/-! `Mobile.AppRouter.processAppRoutes`. A controller is an object
identity plus a name-to-method table (`controller[methodName]` is a
first-found property lookup); `_.bind(method, controller)` is modelled as
the pair of the method and the controller identity it is bound to; a
`router.route(route, methodName, method)` call is a `Registration`. The
route table is the `appRoutes` object's `(pattern, methodName)` pairs in
declaration (insertion) order, which is the `for..in` enumeration order;
`hasOwnProperty` holds for every entry of the table. The `throw` of the
`NoMethodError` is the `some`-error component of the result, carried next
to the registrations performed before it. -/

structure Controller where
  cid : Nat
  methods : List (String × Nat)
deriving DecidableEq, Repr

structure BoundMethod where
  method : Nat
  boundTo : Nat
deriving DecidableEq, Repr

structure Registration where
  pattern : String
  name : String
  handler : BoundMethod
deriving DecidableEq, Repr

structure RouteError where
  name : String
  message : String
deriving DecidableEq, Repr

def noMethodMessage (methodName : String) : String :=
  "Method " ++ methodName ++ " was not found on the controller"

/-- The `for (i = 0; ...)` registration loop over the already-reversed
`routes` array: registers each route in order until a method fails to
resolve, at which point the `NoMethodError` is thrown. Returns the
registrations performed (in order) and the error, if any. -/
def registerRoutes (controller : Controller) :
    List (String × String) → List Registration × Option RouteError
  | [] => ([], none)
  | (route, methodName) :: rest =>
    match controller.methods.lookup methodName with
    | none => ([], some ⟨"NoMethodError", noMethodMessage methodName⟩)
    | some m =>
      let r := registerRoutes controller rest
      (⟨route, methodName, ⟨m, controller.cid⟩⟩ :: r.1, r.2)

/-- `Mobile.AppRouter.processAppRoutes(controller, appRoutes)`: the
`for..in` loop `unshift`s every pair, reversing declaration order, then
the indexed loop registers each pair. -/
def processAppRoutes (controller : Controller)
    (appRoutes : List (String × String)) :
    List Registration × Option RouteError :=
  registerRoutes controller (appRoutes.reverse)

theorem registerRoutes_all_found (controller : Controller) :
    ∀ l : List (String × String),
      (∀ p ∈ l, (controller.methods.lookup p.2).isSome) →
      registerRoutes controller l
        = (l.map (fun p =>
              (⟨p.1, p.2,
                ⟨(controller.methods.lookup p.2).getD 0, controller.cid⟩⟩
               : Registration)),
           none) := by
  intro l
  induction l with
  | nil => intro _; rfl
  | cons hd tl ih =>
    intro hall
    rcases hd with ⟨route, methodName⟩
    have hhd := hall (route, methodName) (List.mem_cons_self _ _)
    rcases hm : controller.methods.lookup methodName with _ | m
    · rw [hm] at hhd
      exact absurd hhd (by simp)
    · have ihr := ih (fun p hp => hall p (List.mem_cons_of_mem _ hp))
      rw [registerRoutes, hm, List.map_cons, ihr]
      simp [hm]

/-- C3: when every declared method resolves on the controller, no error is
raised and the registrations presented to the routing primitive are
exactly the declared pairs in reverse declaration order, each handler
being the resolved controller method bound to the controller. -/
theorem c3_routes_reversed_and_bound (controller : Controller)
    (appRoutes : List (String × String))
    (hall : ∀ p ∈ appRoutes, (controller.methods.lookup p.2).isSome) :
    processAppRoutes controller appRoutes
      = (appRoutes.reverse.map (fun p =>
            (⟨p.1, p.2,
              ⟨(controller.methods.lookup p.2).getD 0, controller.cid⟩⟩
             : Registration)),
         none) := by
  rw [processAppRoutes]
  exact registerRoutes_all_found controller appRoutes.reverse
    (fun p hp => hall p (List.mem_reverse.mp hp))

/-- The spec's own example: `appRoutes = {"a/:id": "showA", "b": "showB"}`
with a controller implementing both methods. -/
def c3Controller : Controller := ⟨4, [("showA", 10), ("showB", 11)]⟩

def c3Routes : List (String × String) := [("a/:id", "showA"), ("b", "showB")]

theorem c3_routes_reversed_and_bound_witness :
    processAppRoutes c3Controller c3Routes
      = ([⟨"b", "showB", ⟨11, 4⟩⟩, ⟨"a/:id", "showA", ⟨10, 4⟩⟩], none) := by
  rw [c3_routes_reversed_and_bound c3Controller c3Routes (by decide)]
  rfl

/-- A controller implementing only `showA`. -/
def c2Controller : Controller := ⟨3, [("showA", 10)]⟩

/-- A route table declaring the `showB` route first: after the reversal,
`showA` is registered before the `showB` resolution fails. -/
def c2Routes : List (String × String) := [("b", "showB"), ("a", "showA")]

/-- C2 counterexample: for the table `{"b": "showB", "a": "showA"}` and a
controller missing `showB`, construction does raise the NoMethodError
naming `showB`, but the `"a"` route has already been registered with the
routing primitive when the error is thrown — refuting the claim that the
error is raised before any route is registered. -/
theorem c2_counterexample :
    (processAppRoutes c2Controller c2Routes).2
        = some ⟨"NoMethodError", noMethodMessage "showB"⟩
      ∧ (processAppRoutes c2Controller c2Routes).1
        = [⟨"a", "showA", ⟨10, 3⟩⟩] := by
  constructor <;> rfl

theorem registerRoutes_missing (controller : Controller) :
    ∀ l : List (String × String),
      (∃ p ∈ l, controller.methods.lookup p.2 = none) →
      ∃ q, l.find? (fun p => (controller.methods.lookup p.2).isNone) = some q
        ∧ registerRoutes controller l
          = ((l.takeWhile (fun p => (controller.methods.lookup p.2).isSome)).map
                (fun p =>
                  (⟨p.1, p.2,
                    ⟨(controller.methods.lookup p.2).getD 0, controller.cid⟩⟩
                   : Registration)),
             some ⟨"NoMethodError", noMethodMessage q.2⟩) := by
  intro l
  induction l with
  | nil => rintro ⟨p, hp, _⟩; exact absurd hp (List.not_mem_nil p)
  | cons hd tl ih =>
    rintro ⟨p, hp, hnone⟩
    rcases hd with ⟨route, methodName⟩
    rcases hm : controller.methods.lookup methodName with _ | m
    · refine ⟨(route, methodName), ?_, ?_⟩
      · rw [List.find?_cons_of_pos _ (by simp [hm])]
      · rw [List.takeWhile_cons_of_neg (by simp [hm])]
        rw [registerRoutes, hm]
        rfl
    · have hptl : p ∈ tl := by
        rcases List.mem_cons.mp hp with heq | htl
        · exfalso
          rw [heq] at hnone
          show False
          have : controller.methods.lookup methodName = none := hnone
          rw [hm] at this
          exact Option.noConfusion this
        · exact htl
      rcases ih ⟨p, hptl, hnone⟩ with ⟨q, hfind, hrr⟩
      refine ⟨q, ?_, ?_⟩
      · rw [List.find?_cons_of_neg _ (by simp [hm])]
        exact hfind
      · rw [List.takeWhile_cons_of_pos (by simp [hm])]
        rw [registerRoutes, hm, hrr, List.map_cons]
        simp [hm]

/-- C2 amended: if some declared method name resolves to no method on the
controller, router construction raises a `NoMethodError` naming the first
missing method in registration (reversed-declaration) order,
synchronously during construction and never deferred to route-dispatch
time; the failing route and every route after it in registration order
are never registered, but the routes preceding it in registration order
have already been registered when the error is thrown. -/
theorem c2_method_not_found_fail_fast (controller : Controller)
    (appRoutes : List (String × String))
    (hmiss : ∃ p ∈ appRoutes, controller.methods.lookup p.2 = none) :
    ∃ q, appRoutes.reverse.find?
          (fun p => (controller.methods.lookup p.2).isNone) = some q
      ∧ processAppRoutes controller appRoutes
          = ((appRoutes.reverse.takeWhile
                (fun p => (controller.methods.lookup p.2).isSome)).map
              (fun p =>
                (⟨p.1, p.2,
                  ⟨(controller.methods.lookup p.2).getD 0, controller.cid⟩⟩
                 : Registration)),
             some ⟨"NoMethodError", noMethodMessage q.2⟩) := by
  rcases hmiss with ⟨p, hp, hnone⟩
  exact registerRoutes_missing controller appRoutes.reverse
    ⟨p, List.mem_reverse.mpr hp, hnone⟩

theorem c2_method_not_found_fail_fast_witness :
    ∃ q, (([("a/:id", "showA"), ("b", "showB")] : List (String × String))).reverse.find?
          (fun p => (c2Controller.methods.lookup p.2).isNone) = some q
      ∧ processAppRoutes c2Controller [("a/:id", "showA"), ("b", "showB")]
          = (((([("a/:id", "showA"), ("b", "showB")] : List (String × String))).reverse.takeWhile
                (fun p => (c2Controller.methods.lookup p.2).isSome)).map
              (fun p =>
                (⟨p.1, p.2,
                  ⟨(c2Controller.methods.lookup p.2).getD 0, c2Controller.cid⟩⟩
                 : Registration)),
             some ⟨"NoMethodError", noMethodMessage q.2⟩) :=
  c2_method_not_found_fail_fast c2Controller [("a/:id", "showA"), ("b", "showB")]
    ⟨("b", "showB"), by simp, rfl⟩

/-! JavaScript plain objects as association lists. `setIn` is one property
assignment `target[key] = value` (replace the entry for an existing key,
append otherwise); `extendIn` is underscore's `_.extend(target, source)`,
assigning every key of `source` onto `target` in order. -/

def setIn {α : Type} : List (String × α) → String → α → List (String × α)
  | [], k, v => [(k, v)]
  | (k0, v0) :: rest, k, v =>
    if k0 = k then (k, v) :: rest else (k0, v0) :: setIn rest k v

def extendIn {α : Type} (target source : List (String × α)) :
    List (String × α) :=
  source.foldl (fun acc p => setIn acc p.1 p.2) target

theorem lookup_cons_ne {α : Type} (tl : List (String × α)) (k k0 : String)
    (v0 : α) (h : k ≠ k0) : ((k0, v0) :: tl).lookup k = tl.lookup k := by
  rw [List.lookup_cons]
  have hb : (k == k0) = false := beq_eq_false_iff_ne.mpr h
  rw [hb]

theorem lookup_setIn_self {α : Type} (o : List (String × α)) (k : String)
    (v : α) : (setIn o k v).lookup k = some v := by
  induction o with
  | nil => exact List.lookup_cons_self
  | cons hd tl ih =>
    rcases hd with ⟨k0, v0⟩
    by_cases hk : k0 = k
    · simp only [setIn, if_pos hk]
      exact List.lookup_cons_self
    · simp only [setIn, if_neg hk]
      rw [lookup_cons_ne (setIn tl k v) k k0 v0 (fun hx => hk hx.symm)]
      exact ih

theorem lookup_setIn_ne {α : Type} (o : List (String × α)) (k k' : String)
    (v : α) (h : k' ≠ k) : (setIn o k v).lookup k' = o.lookup k' := by
  induction o with
  | nil =>
    show ([(k, v)] : List (String × α)).lookup k' = _
    rw [lookup_cons_ne ([] : List (String × α)) k' k v h]
  | cons hd tl ih =>
    rcases hd with ⟨k0, v0⟩
    by_cases hk : k0 = k
    · subst hk
      have hset : setIn ((k0, v0) :: tl) k0 v = (k0, v) :: tl := by
        simp [setIn]
      rw [hset, lookup_cons_ne tl k' k0 v h, lookup_cons_ne tl k' k0 v0 h]
    · simp only [setIn, if_neg hk]
      by_cases hk' : k' = k0
      · subst hk'
        rw [List.lookup_cons_self, List.lookup_cons_self]
      · rw [lookup_cons_ne (setIn tl k v) k' k0 v0 hk',
          lookup_cons_ne tl k' k0 v0 hk']
        exact ih

theorem lookup_eq_none_of_not_mem_keys {α : Type}
    (l : List (String × α)) (k : String) (h : k ∉ l.map Prod.fst) :
    l.lookup k = none := by
  induction l with
  | nil => rfl
  | cons hd tl ih =>
    rcases hd with ⟨k0, v0⟩
    have hk : k ≠ k0 := by
      intro hkk
      exact h (by rw [hkk]; exact List.mem_cons_self _ _)
    have htl : k ∉ tl.map Prod.fst := fun hm => h (List.mem_cons_of_mem _ hm)
    rw [lookup_cons_ne tl k k0 v0 hk]
    exact ih htl

theorem lookup_extendIn_of_none {α : Type}
    (source : List (String × α)) :
    ∀ (target : List (String × α)) (k : String), source.lookup k = none →
      (extendIn target source).lookup k = target.lookup k := by
  induction source with
  | nil => intro t k _; rfl
  | cons hd tl ih =>
    intro t k h
    rcases hd with ⟨k0, v0⟩
    by_cases hk : k = k0
    · exfalso
      subst hk
      rw [List.lookup_cons_self] at h
      exact Option.noConfusion h
    · have htl : tl.lookup k = none := by
        rw [lookup_cons_ne tl k k0 v0 hk] at h
        exact h
      show (extendIn (setIn t k0 v0) tl).lookup k = _
      rw [ih (setIn t k0 v0) k htl, lookup_setIn_ne t k0 k v0 hk]

theorem lookup_extendIn_of_some {α : Type}
    (source : List (String × α)) :
    ∀ (target : List (String × α)) (k : String) (v : α),
      (source.map Prod.fst).Nodup → source.lookup k = some v →
      (extendIn target source).lookup k = some v := by
  induction source with
  | nil => intro t k v _ h; exact Option.noConfusion h
  | cons hd tl ih =>
    intro t k v hnd h
    rcases hd with ⟨k0, v0⟩
    rcases List.nodup_cons.mp hnd with ⟨hk0, hndtl⟩
    by_cases hk : k = k0
    · subst hk
      have hv : v0 = v := by
        rw [List.lookup_cons_self] at h
        exact Option.some.inj h
      subst hv
      have htl : tl.lookup k = none :=
        lookup_eq_none_of_not_mem_keys tl k hk0
      show (extendIn (setIn t k v0) tl).lookup k = _
      rw [lookup_extendIn_of_none tl (setIn t k v0) k htl,
        lookup_setIn_self]
    · have htl : tl.lookup k = some v := by
        rw [lookup_cons_ne tl k k0 v0 hk] at h
        exact h
      exact ih (setIn t k0 v0) k v hndtl htl

theorem lookup_map_value {α β : Type} (g : α → β)
    (l : List (String × α)) (k : String) :
    (l.map (fun p => (p.1, g p.2))).lookup k = (l.lookup k).map g := by
  induction l with
  | nil => rfl
  | cons hd tl ih =>
    rcases hd with ⟨k0, v0⟩
    by_cases hk : k = k0
    · subst hk
      show ((k, g v0) :: tl.map (fun p => (p.1, g p.2))).lookup k = _
      rw [List.lookup_cons_self, List.lookup_cons_self]
      rfl
    · show ((k0, g v0) :: tl.map (fun p => (p.1, g p.2))).lookup k = _
      rw [lookup_cons_ne (tl.map (fun p => (p.1, g p.2))) k k0 (g v0) hk,
        lookup_cons_ne tl k k0 v0 hk]
      exact ih

/-! `Mobile.View.serializeData` / `mixinTemplateHelpers`. Serialized
values are opaque atoms, except that the collection's serialized form is
an array wrapped under the `items` key; `templateHelpers` is either
absent, an object literal, or a zero-argument producer invoked with the
view (modelled by its identity) as context. -/

inductive Val where
  | atom (n : Nat)
  | arr (items : List Nat)
deriving DecidableEq, Repr

abbrev Obj := List (String × Val)

inductive THelpers where
  | noHelpers
  | staticH (o : Obj)
  | funcH (f : Nat → Obj)

structure SView where
  selfId : Nat
  model : Option Obj
  collection : Option (List Nat)
  templateHelpers : THelpers

/-- `this.templateHelpers`, invoked via `templateHelpers.call(this)` when
it is a function. -/
def resolveTemplateHelpers (v : SView) : Option Obj :=
  match v.templateHelpers with
  | THelpers.noHelpers => none
  | THelpers.staticH o => some o
  | THelpers.funcH f => some (f v.selfId)

/-- `Mobile.View.mixinTemplateHelpers(target)`: `target = target || {}`,
then `_.extend(target, templateHelpers)` (`_.extend` with an undefined
source returns the target unchanged). -/
def mixinTemplateHelpers (v : SView) (target : Option Obj) : Obj :=
  let t := target.getD []
  match resolveTemplateHelpers v with
  | none => t
  | some th => extendIn t th

/-- `Mobile.View.serializeData()`: model's `toJSON` if a model is present,
else `{ items: collection.toJSON() }` if a collection is present, else
undefined; then mixed with the template helpers. -/
def serializeData (v : SView) : Obj :=
  let data : Option Obj :=
    match v.model with
    | some m => some m
    | none =>
      match v.collection with
      | some c => some [("items", Val.arr c)]
      | none => none
  mixinTemplateHelpers v data

/-- C7: `serializeData()` bases itself on the model's serialized form when
a model is present (even when a collection is also present), else on
`{ items: <serialized collection> }` when only a collection is present,
else on an undefined/empty base; the base is then shallow-merged with the
resolved template helpers, helper keys overwriting same-named base keys
and all other base keys surviving unchanged. -/
theorem c7_serializeData_precedence_and_merge (v : SView) :
    (∀ m, v.model = some m →
        serializeData v = mixinTemplateHelpers v (some m))
      ∧ (∀ c, v.model = none → v.collection = some c →
          serializeData v = mixinTemplateHelpers v (some [("items", Val.arr c)]))
      ∧ (v.model = none → v.collection = none →
          serializeData v = mixinTemplateHelpers v none)
      ∧ (∀ target th k hv, resolveTemplateHelpers v = some th →
          (th.map Prod.fst).Nodup → th.lookup k = some hv →
          (mixinTemplateHelpers v (some target)).lookup k = some hv)
      ∧ (∀ target th k, resolveTemplateHelpers v = some th →
          th.lookup k = none →
          (mixinTemplateHelpers v (some target)).lookup k = target.lookup k) := by
  refine ⟨?_, ?_, ?_, ?_, ?_⟩
  · intro m hm
    rw [serializeData, hm]
  · intro c hm hc
    rw [serializeData, hm, hc]
  · intro hm hc
    rw [serializeData, hm, hc]
  · intro target th k hv hth hnd hlk
    rw [mixinTemplateHelpers, hth]
    exact lookup_extendIn_of_some th target k hv hnd hlk
  · intro target th k hth hlk
    rw [mixinTemplateHelpers, hth]
    exact lookup_extendIn_of_none th target k hlk

/-- A view with a model, a collection, and static helpers whose `a` key
collides with the model's `a` key. -/
def c7View : SView :=
  ⟨0, some [("a", Val.atom 1), ("b", Val.atom 2)], some [3, 4],
    THelpers.staticH [("h", Val.atom 5), ("a", Val.atom 9)]⟩

theorem c7_serializeData_precedence_and_merge_witness :
    serializeData c7View
        = mixinTemplateHelpers c7View (some [("a", Val.atom 1), ("b", Val.atom 2)])
      ∧ (mixinTemplateHelpers c7View
          (some [("a", Val.atom 1), ("b", Val.atom 2)])).lookup "a"
        = some (Val.atom 9)
      ∧ (mixinTemplateHelpers c7View
          (some [("a", Val.atom 1), ("b", Val.atom 2)])).lookup "b"
        = ([("a", Val.atom 1), ("b", Val.atom 2)] : Obj).lookup "b" :=
  ⟨(c7_serializeData_precedence_and_merge c7View).1 _ rfl,
   (c7_serializeData_precedence_and_merge c7View).2.2.2.1
     [("a", Val.atom 1), ("b", Val.atom 2)]
     [("h", Val.atom 5), ("a", Val.atom 9)] "a" (Val.atom 9) rfl
     (by decide) (by decide),
   (c7_serializeData_precedence_and_merge c7View).2.2.2.2
     [("a", Val.atom 1), ("b", Val.atom 2)]
     [("h", Val.atom 5), ("a", Val.atom 9)] "b" rfl (by decide)⟩

/-! `Mobile.View.configureTriggers` and the `delegateEvents` override.
A trigger handler closure captures only the semantic event name and the
view, so it is modelled by the `THandler` record plus `runTHandler`,
which returns the sequence of effects the closure performs on a DOM event
object (an object that may be absent and may lack either capability). -/

inductive TriggersCfg where
  | staticT (m : List (String × String))
  | funcT (f : Nat → List (String × String))

inductive EventsCfg where
  | staticE (m : List (String × String))
  | funcE (f : Nat → List (String × String))

structure TView where
  selfId : Nat
  triggers : Option TriggersCfg
  events : Option EventsCfg

structure THandler where
  value : String
deriving DecidableEq, Repr

structure DomEvt where
  present : Bool
  hasPreventDefault : Bool
  hasStopPropagation : Bool
deriving DecidableEq, Repr

inductive HAct where
  | preventDefault
  | stopPropagation
  | triggerView (viewId : Nat) (eventName : String)
deriving DecidableEq, Repr

/-- The closure built for one trigger entry:
`if (e && e.preventDefault){ e.preventDefault(); }
if (e && e.stopPropagation){ e.stopPropagation(); }
that.trigger(value);`. -/
def runTHandler (viewId : Nat) (h : THandler) (e : DomEvt) : List HAct :=
  (if e.present && e.hasPreventDefault then [HAct.preventDefault] else [])
    ++ (if e.present && e.hasStopPropagation then [HAct.stopPropagation] else [])
    ++ [HAct.triggerView viewId h.value]

/-- `this.triggers`, invoked via `triggers.call(this)` when a function. -/
def resolveTriggers (v : TView) (cfg : TriggersCfg) : List (String × String) :=
  match cfg with
  | TriggersCfg.staticT m => m
  | TriggersCfg.funcT f => f v.selfId

/-- `Mobile.View.configureTriggers()`: returns `undefined` when
`this.triggers` is absent; otherwise builds the `triggerEvents` object by
assigning `triggerEvents[key] = handler` for each configured pair. -/
def configureTriggers (v : TView) : Option (List (String × THandler)) :=
  match v.triggers with
  | none => none
  | some cfg =>
    some (extendIn []
      ((resolveTriggers v cfg).map (fun p => (p.1, (⟨p.2⟩ : THandler)))))

/-- C8: `configureTriggers()` returns undefined exactly when no `triggers`
are configured, and an empty-but-defined mapping when `triggers` resolves
(invoked as a producer with the view as context when it is a function) to
an explicitly empty structure; for a configured pair the produced mapping
carries the handler for that DOM event descriptor, and the handler, given
a DOM event object, performs `preventDefault` exactly when the object is
present and has that capability, likewise `stopPropagation`, and finally
triggers the semantic event name on the view. -/
theorem c8_configureTriggers (v : TView) :
    (configureTriggers v = none ↔ v.triggers = none)
      ∧ (∀ cfg, v.triggers = some cfg → resolveTriggers v cfg = [] →
          configureTriggers v = some [])
      ∧ (∀ cfg k name, v.triggers = some cfg →
          ((resolveTriggers v cfg).map Prod.fst).Nodup →
          (resolveTriggers v cfg).lookup k = some name →
          ∃ m, configureTriggers v = some m
            ∧ m.lookup k = some (⟨name⟩ : THandler))
      ∧ (∀ viewId name e,
          (HAct.preventDefault ∈ runTHandler viewId ⟨name⟩ e
              ↔ e.present = true ∧ e.hasPreventDefault = true)
            ∧ (HAct.stopPropagation ∈ runTHandler viewId ⟨name⟩ e
              ↔ e.present = true ∧ e.hasStopPropagation = true)
            ∧ (runTHandler viewId ⟨name⟩ e).getLast?
              = some (HAct.triggerView viewId name)) := by
  refine ⟨?_, ?_, ?_, ?_⟩
  · constructor
    · intro h
      rcases ht : v.triggers with _ | cfg
      · rfl
      · rw [configureTriggers, ht] at h
        exact Option.noConfusion h
    · intro h
      rw [configureTriggers, h]
  · intro cfg hcfg hempty
    rw [configureTriggers, hcfg]
    show some (extendIn []
      ((resolveTriggers v cfg).map (fun p => (p.1, (⟨p.2⟩ : THandler)))))
      = some []
    rw [hempty]
    rfl
  · intro cfg k name hcfg hnd hlk
    refine ⟨extendIn []
      ((resolveTriggers v cfg).map (fun p => (p.1, (⟨p.2⟩ : THandler)))),
      by rw [configureTriggers, hcfg], ?_⟩
    apply lookup_extendIn_of_some
    · show ((resolveTriggers v cfg).map _).map Prod.fst |>.Nodup
      rw [List.map_map]
      exact hnd
    · rw [lookup_map_value (fun s => (⟨s⟩ : THandler)) (resolveTriggers v cfg) k,
        hlk]
      rfl
  · intro viewId name e
    rcases e with ⟨p, pd, sp⟩
    cases p <;> cases pd <;> cases sp <;>
      simp [runTHandler]

/-- The view of the source comment: `triggers: {"click .foo": "do:foo"}`. -/
def c8View : TView :=
  ⟨7, some (TriggersCfg.staticT [("click .foo", "do:foo")]), none⟩

/-- A view whose `triggers` producer resolves to an empty structure. -/
def c8ViewEmpty : TView :=
  ⟨7, some (TriggersCfg.funcT (fun _ => [])), none⟩

theorem c8_configureTriggers_witness :
    configureTriggers c8ViewEmpty = some []
      ∧ (∃ m, configureTriggers c8View = some m
          ∧ m.lookup "click .foo" = some (⟨"do:foo"⟩ : THandler))
      ∧ (runTHandler 7 ⟨"do:foo"⟩ ⟨true, true, false⟩).getLast?
          = some (HAct.triggerView 7 "do:foo") :=
  ⟨(c8_configureTriggers c8ViewEmpty).2.1 _ rfl rfl,
   (c8_configureTriggers c8View).2.2.1 _ "click .foo" "do:foo" rfl
     (by decide) (by decide),
   ((c8_configureTriggers c8View).2.2.2 7 "do:foo" ⟨true, true, false⟩).2.2⟩

/-- The value stored for a DOM event descriptor in the combined map handed
to `Backbone.View.prototype.delegateEvents`: either an explicit `events`
entry or a trigger-derived handler. -/
inductive DelegVal where
  | fromEvents (methodName : String)
  | fromTrigger (h : THandler)
deriving DecidableEq, Repr

/-- `events || this.events`, invoked via `events.call(this)` when a
function. -/
def resolveEvents (v : TView) (eventsArg : Option EventsCfg) :
    List (String × String) :=
  match (match eventsArg with | some e => some e | none => v.events) with
  | none => []
  | some (EventsCfg.staticE m) => m
  | some (EventsCfg.funcE f) => f v.selfId

/-- `Mobile.View.delegateEvents(events)`:
`_.extend(combinedEvents, events, triggers)` over a fresh object (an
undefined `triggers` contributes nothing), then handed to the base
implementation. -/
def delegateEvents (v : TView) (eventsArg : Option EventsCfg) :
    List (String × DelegVal) :=
  let combined := extendIn []
    ((resolveEvents v eventsArg).map (fun p => (p.1, DelegVal.fromEvents p.2)))
  match configureTriggers v with
  | none => combined
  | some ts => extendIn combined (ts.map (fun p => (p.1, DelegVal.fromTrigger p.2)))

/-- C9: when the explicit events map and the map produced by
`configureTriggers()` both contain an entry for the same DOM event
descriptor, the combined map handed to the underlying delegation
capability contains the trigger-derived handler for that descriptor. -/
theorem c9_triggers_override_events (v : TView) (eventsArg : Option EventsCfg)
    (k : String) (h : THandler) (ts : List (String × THandler))
    (_hev : ∃ name, (resolveEvents v eventsArg).lookup k = some name)
    (hts : configureTriggers v = some ts)
    (hnd : (ts.map Prod.fst).Nodup)
    (hlk : ts.lookup k = some h) :
    (delegateEvents v eventsArg).lookup k = some (DelegVal.fromTrigger h) := by
  rw [delegateEvents, hts]
  apply lookup_extendIn_of_some
  · show (ts.map _).map Prod.fst |>.Nodup
    rw [List.map_map]
    exact hnd
  · rw [lookup_map_value DelegVal.fromTrigger ts k, hlk]
    rfl

/-- A view declaring both an explicit `events` entry and a trigger for
`"click .foo"`. -/
def c9View : TView :=
  ⟨3, some (TriggersCfg.staticT [("click .foo", "do:foo")]),
    some (EventsCfg.staticE [("click .foo", "onFoo"), ("keyup", "onKey")])⟩

theorem c9_triggers_override_events_witness :
    (delegateEvents c9View none).lookup "click .foo"
      = some (DelegVal.fromTrigger (⟨"do:foo"⟩ : THandler)) :=
  c9_triggers_override_events c9View none "click .foo" ⟨"do:foo"⟩
    [("click .foo", ⟨"do:foo"⟩)] ⟨"onFoo", by decide⟩ rfl (by decide)
    (by decide)

end BackboneMobile
